import Mathlib

/-!
# pydr/logger: configuration-driven construction of a zap logger

A shallow embedding of `logger.go` (the functions `New` and `getLevel`) together with the
parts of the Go standard library and of zap that the two functions rely on, followed by the
properties of the construction.

Conventions.
* Go strings are Lean strings (sequences of code points); the configuration strings come out
  of `encoding/json`, which only produces valid UTF-8.
* `zapcore.Level` is an `int8`; it is embedded as an integer with the named constants of zap.
* What the operating system and the JSON scanner do is collected in a `World` value that
  `New` receives as an argument.
-/

namespace PydrLogger

/-! ## Severity levels (go.uber.org/zap/zapcore) -/

/-- The type `zapcore.Level` (an `int8` in zap). -/
abbrev Level := Int

/-- The constant `zapcore.DebugLevel`. -/
def DebugLevel : Level := -1

/-- The constant `zapcore.InfoLevel`. -/
def InfoLevel : Level := 0

/-- The constant `zapcore.WarnLevel`. -/
def WarnLevel : Level := 1

/-- The constant `zapcore.ErrorLevel`. -/
def ErrorLevel : Level := 2

/-- The constant `zapcore.DPanicLevel`. -/
def DPanicLevel : Level := 3

/-- The constant `zapcore.PanicLevel`. -/
def PanicLevel : Level := 4

/-- The constant `zapcore.FatalLevel`. -/
def FatalLevel : Level := 5

/-- The method `func (l Level) Enabled(lvl Level) bool { return lvl >= l }` of zapcore. -/
def Enabled (l lvl : Level) : Bool := decide (l ≤ lvl)

/-! ## Strings (package `strings`) -/

/-- The rune-level step of `strings.ToLower` (`unicode.ToLower`), exact on every rune whose
lower case is an ASCII letter: `A`..`Z`, U+0130 (capital I with dot, lower case `i`) and
U+212A (Kelvin sign, lower case `k`). Every other rune lower-cases to a rune outside ASCII
or to itself and is left as it is: `getLevel` only compares the result with ASCII words, and
that comparison cannot tell the two apart. -/
def lowerRune (c : Char) : Char :=
  if 65 ≤ c.toNat ∧ c.toNat ≤ 90 then Char.ofNat (c.toNat + 32)
  else if c.toNat = 0x130 then 'i'
  else if c.toNat = 0x212A then 'k'
  else c

/-- The function `strings.ToLower`: every rune replaced by its lower case. -/
def ToLower (s : String) : String := ⟨s.data.map lowerRune⟩

/-- The function `unicode.SimpleFold` on the orbits that contain an ASCII rune: the letter
pairs, and the two three-element orbits `K k U+212A` and `S s U+017F`. Runes of other orbits
are returned unchanged. -/
def SimpleFold (r : Nat) : Nat :=
  if r = 75 then 107
  else if r = 107 then 0x212A
  else if r = 0x212A then 75
  else if r = 83 then 115
  else if r = 115 then 0x17F
  else if r = 0x17F then 83
  else if 65 ≤ r ∧ r ≤ 90 then r + 32
  else if 97 ≤ r ∧ r ≤ 122 then r - 32
  else r

/-- The loop `for r != sr && r < tr { r = unicode.SimpleFold(r) }` of `strings.EqualFold`.
An orbit of `SimpleFold` has at most three runes, so the loop condition fails before the
counter is used up whenever it starts at 3. -/
def foldWalk : Nat → Nat → Nat → Nat → Nat
  | 0, _, _, r => r
  | n + 1, sr, tr, r => if r ≠ sr ∧ r < tr then foldWalk n sr tr (SimpleFold r) else r

/-- One iteration of the rune loop of `strings.EqualFold`: do the runes `sr` and `tr` match?
Exact whenever one of the two runes is ASCII, which holds at every call in `logger.go`
(the second argument is an ASCII literal) and for the field names of `logConfig`. -/
def foldEqRune (sr tr : Nat) : Bool :=
  if tr = sr then true
  else
    let lo := min sr tr
    let hi := max sr tr
    if hi < 0x80 then decide (65 ≤ lo ∧ lo ≤ 90 ∧ hi = lo + 32)
    else decide (foldWalk 3 lo hi (SimpleFold lo) = hi)

/-- The function `strings.EqualFold` on the runes of the two strings. -/
def equalFoldRunes : List Char → List Char → Bool
  | [], [] => true
  | sr :: s, tr :: t => foldEqRune sr.toNat tr.toNat && equalFoldRunes s t
  | _, _ => false

/-- The function `strings.EqualFold`: equality under simple Unicode case folding. -/
def EqualFold (s t : String) : Bool := equalFoldRunes s.data t.data

/-! ## `getLevel` (logger.go, lines 130-147) -/

/-- The function `getLevel`: the threshold a severity name stands for. -/
def getLevel (level : String) : Level :=
  let l := ToLower level
  if l = "panic" ∨ l = "dpanic" then PanicLevel
  else if l = "fatal" then FatalLevel
  else if l = "error" then ErrorLevel
  else if l = "warn" ∨ l = "warning" then WarnLevel
  else if l = "info" then InfoLevel
  else if l = "debug" then DebugLevel
  else DebugLevel

/-! ## The configuration (logger.go, lines 17-33 and 51-69) -/

/-- Modelled from the spec: the declaration of `lumberjack.Logger` is not part of the
repository; a rotation policy is a target path, a maximal size, a maximal age and a maximal
number of backups, the four fields `New` sets in its defaults. -/
structure LumberjackLogger where
  Filename : String
  MaxSize : Int
  MaxAge : Int
  MaxBackups : Int
deriving DecidableEq, Repr

/-- The struct `logFilePath`; `Hook` is a pointer and may be nil. -/
structure logFilePath where
  Level : String
  Hook : Option LumberjackLogger
deriving DecidableEq, Repr

/-- The struct `logConfig`; `LogsPath` is a slice of pointers, each of which may be nil. -/
structure logConfig where
  Desc : String
  Level : String
  Stdout : Bool
  Encoding : String
  AddCaller : Bool
  Color : Bool
  FilesOut : Bool
  LogsPath : List (Option logFilePath)
deriving DecidableEq, Repr

/-- The value `logcfg` is initialised with at the top of `New` (lines 51-69). -/
def logcfgDefault : logConfig :=
  { Desc := "development"
    Level := "error"
    Stdout := true
    Encoding := "console"
    AddCaller := true
    Color := true
    FilesOut := false
    LogsPath := [some
      { Level := "error"
        Hook := some
          { Filename := "./logs/zlog.log"
            MaxSize := 1024
            MaxAge := 7
            MaxBackups := 3 } }] }

/-! ## Reading and decoding the configuration file (`ioutil.ReadFile`, `json.Unmarshal`) -/

/-- A JSON value as the scanner of `encoding/json` sees it; a number keeps its literal. -/
inductive JSON where
  | null
  | bool (b : Bool)
  | number (lit : String)
  | str (s : String)
  | array (elems : List JSON)
  | object (members : List (String × JSON))

/-- What `New` takes from outside the repository: the file system behind `ioutil.ReadFile`,
the syntax check and scan of the file contents at the start of `json.Unmarshal`, and the
decoding of a JSON array into the slice `[]*logFilePath` (which depends on the field tags of
lumberjack and on the slice that is already there). Each returns its error as text. -/
structure World where
  ReadFile : String → Except String String
  scan : String → Except String JSON
  decodeLogsPath : List JSON → List (Option logFilePath) → Except String (List (Option logFilePath))

/-- The exported fields of `logConfig`, in declaration order. -/
inductive Field where
  | Desc | Level | Stdout | Encoding | AddCaller | Color | FilesOut | LogsPath
deriving DecidableEq, Repr

/-- The Go name of a field, which is also its JSON key (the struct has no tags). -/
def Field.name : Field → String
  | .Desc => "Desc"
  | .Level => "Level"
  | .Stdout => "Stdout"
  | .Encoding => "Encoding"
  | .AddCaller => "AddCaller"
  | .Color => "Color"
  | .FilesOut => "FilesOut"
  | .LogsPath => "LogsPath"

/-- All fields of `logConfig`. -/
def Field.all : List Field :=
  [.Desc, .Level, .Stdout, .Encoding, .AddCaller, .Color, .FilesOut, .LogsPath]

/-- The field a JSON key is decoded into: `encoding/json` prefers an exact match of the name
and otherwise takes a case-insensitive one; a key that matches no field is skipped. -/
def findField (key : String) : Option Field :=
  match Field.all.find? (fun f => decide (f.name = key)) with
  | some f => some f
  | none => Field.all.find? (fun f => EqualFold f.name key)

/-- The word `encoding/json` uses for a JSON value in an `UnmarshalTypeError`. -/
def JSON.kind : JSON → String
  | .null => "null"
  | .bool _ => "bool"
  | .number _ => "number"
  | .str _ => "string"
  | .array _ => "array"
  | .object _ => "object"

/-- The text of an `UnmarshalTypeError` for a value that does not fit a field. -/
def typeError (v : JSON) (field : String) (goType : String) : String :=
  "json: cannot unmarshal " ++ v.kind ++ " into Go struct field logConfig." ++ field ++
    " of type " ++ goType

/-- Decoding one JSON value into one field of `logcfg`: a string into a string field, a
boolean into a boolean field, an array into `LogsPath`; `null` leaves a string or boolean
as it is and sets the slice to nil; anything else is an `UnmarshalTypeError`. -/
def store (w : World) (f : Field) (v : JSON) (c : logConfig) : Except String logConfig :=
  match f, v with
  | .LogsPath, .null => .ok { c with LogsPath := [] }
  | .LogsPath, .array elems =>
    match w.decodeLogsPath elems c.LogsPath with
    | .ok l => .ok { c with LogsPath := l }
    | .error e => .error e
  | .LogsPath, v => .error (typeError v "LogsPath" "[]*logger.logFilePath")
  | _, .null => .ok c
  | .Desc, .str s => .ok { c with Desc := s }
  | .Level, .str s => .ok { c with Level := s }
  | .Encoding, .str s => .ok { c with Encoding := s }
  | .Stdout, .bool b => .ok { c with Stdout := b }
  | .AddCaller, .bool b => .ok { c with AddCaller := b }
  | .Color, .bool b => .ok { c with Color := b }
  | .FilesOut, .bool b => .ok { c with FilesOut := b }
  | .Desc, v => .error (typeError v "Desc" "string")
  | .Level, v => .error (typeError v "Level" "string")
  | .Encoding, v => .error (typeError v "Encoding" "string")
  | .Stdout, v => .error (typeError v "Stdout" "bool")
  | .AddCaller, v => .error (typeError v "AddCaller" "bool")
  | .Color, v => .error (typeError v "Color" "bool")
  | .FilesOut, v => .error (typeError v "FilesOut" "bool")

/-- Decoding the members of a JSON object into `logcfg`, in document order. The first error
is the one `json.Unmarshal` reports, and `New` discards the configuration in that case. -/
def decodeMembers (w : World) : List (String × JSON) → logConfig → Except String logConfig
  | [], c => .ok c
  | (key, v) :: rest, c =>
    match findField key with
    | none => decodeMembers w rest c
    | some f =>
      match store w f v c with
      | .ok c' => decodeMembers w rest c'
      | .error e => .error e

/-- The call `json.Unmarshal(file, &logcfg)`: a syntax error is reported before anything is
stored; `null` stores nothing; an object is decoded member by member; any other value does
not fit a struct. -/
def Unmarshal (w : World) (file : String) (c : logConfig) : Except String logConfig :=
  match w.scan file with
  | .error e => .error e
  | .ok .null => .ok c
  | .ok (.object members) => decodeMembers w members c
  | .ok v => .error ("json: cannot unmarshal " ++ v.kind ++ " into Go value of type logger.logConfig")

/-! ## Encoders, sinks and the logger (zap) -/

/-- The time encoders that occur: the defaults of the two zap presets and `TimeEncoder` of
logger.go (line 46), which formats a time as `2006-01-02 15:04:05.000`. -/
inductive TimeEncoderFn where
  | EpochTimeEncoder | ISO8601TimeEncoder | TimeEncoder
deriving DecidableEq, Repr

/-- The level encoders that occur. -/
inductive LevelEncoderFn where
  | LowercaseLevelEncoder | CapitalLevelEncoder | CapitalColorLevelEncoder
deriving DecidableEq, Repr

/-- The two presets of zap an encoder configuration starts from. -/
inductive Preset where
  | production | development
deriving DecidableEq, Repr

/-- A `zapcore.EncoderConfig`: the preset it was created by (which fixes the keys and the
duration and caller encoders) and the two fields `New` may overwrite. -/
structure EncoderConfig where
  preset : Preset
  EncodeLevel : LevelEncoderFn
  EncodeTime : TimeEncoderFn
deriving DecidableEq, Repr

/-- The function `zap.NewProductionEncoderConfig`. -/
def NewProductionEncoderConfig : EncoderConfig :=
  { preset := .production, EncodeLevel := .LowercaseLevelEncoder, EncodeTime := .EpochTimeEncoder }

/-- The function `zap.NewDevelopmentEncoderConfig`. -/
def NewDevelopmentEncoderConfig : EncoderConfig :=
  { preset := .development, EncodeLevel := .CapitalLevelEncoder, EncodeTime := .ISO8601TimeEncoder }

/-- A `zapcore.Encoder`, made by `NewJSONEncoder` or by `NewConsoleEncoder`. -/
inductive Encoder where
  | json (cfg : EncoderConfig)
  | console (cfg : EncoderConfig)
deriving DecidableEq, Repr

/-- A `zapcore.WriteSyncer`: `zapcore.Lock(os.Stdout)` or `zapcore.AddSync(hook)`. -/
inductive WriteSyncer where
  | stdout
  | file (hook : Option LumberjackLogger)
deriving DecidableEq, Repr

/-- A sink: the value `zapcore.NewCore(enc, ws, enab)`. -/
structure Core where
  enc : Encoder
  out : WriteSyncer
  level : Level
deriving DecidableEq, Repr

/-- The method `Enabled` of a core: its level decides. -/
def Core.Enabled (c : Core) (lvl : Level) : Bool := PydrLogger.Enabled c.level lvl

/-- The handle: `zap.New(zapcore.NewTee(cores...), options)`. -/
structure Logger where
  cores : List Core
  addCaller : Bool
deriving DecidableEq, Repr

/-- The sinks a record of level `lvl` is delivered to: the tee asks every core, and a core
takes the record when its level is enabled. -/
def Logger.Check (lg : Logger) (lvl : Level) : List Core := lg.cores.filter (fun c => c.Enabled lvl)

/-- The errors of `New`, by origin. -/
inductive Error where
  | fileRead (cause : String)
  | parse (cause : String)
  | configuration (msg : String)
deriving DecidableEq, Repr

/-- What a call of `New` does: it returns the pair `(*zap.Logger, error)`, either of which
may be nil, or it panics. -/
inductive Outcome where
  | returned (logger : Option Logger) (err : Option Error)
  | panicked
deriving DecidableEq, Repr

/-! ## `New` (logger.go, lines 50-128) -/

/-- The text `errors.Errorf` builds at lines 89 and 103 (the same format string at both). -/
def invalidValueMessage (value : String) : String :=
  "'" ++ value ++ "' in the configuration file for desc is an invalid value, it could be 'development' or 'production'"

/-- The loop of lines 112-114: one core per entry of `LogsPath`, appended to `cores`;
dereferencing a nil entry panics. -/
def appendFileCores (fileEncoder : Encoder) : List (Option logFilePath) → List Core → Option (List Core)
  | [], cores => some cores
  | none :: _, _ => none
  | some t :: rest, cores =>
    appendFileCores fileEncoder rest (cores ++ [⟨fileEncoder, .file t.Hook, getLevel t.Level⟩])

/-- Lines 79-127 of `New`: validation of the two enumerations and assembly of the sinks,
for the configuration that has been loaded. -/
def newFromConfig (logcfg : logConfig) : Outcome :=
  let base : Option EncoderConfig :=
    if EqualFold logcfg.Desc "production" then some NewProductionEncoderConfig
    else if EqualFold logcfg.Desc "development" then some NewDevelopmentEncoderConfig
    else none
  match base with
  | none => .returned none (some (.configuration (invalidValueMessage logcfg.Desc)))
  | some preset =>
    let encoderConfig : EncoderConfig := { preset with EncodeTime := .TimeEncoder }
    let encoders : Option (Encoder × Encoder) :=
      if EqualFold logcfg.Encoding "json" then
        some (.json encoderConfig, .json encoderConfig)
      else if EqualFold logcfg.Encoding "console" then
        some (.console encoderConfig,
          .console (if logcfg.Color then
            { encoderConfig with EncodeLevel := .CapitalColorLevelEncoder } else encoderConfig))
      else none
    match encoders with
    | none => .returned none (some (.configuration (invalidValueMessage logcfg.Encoding)))
    | some (fileEncoder, consoleEncoder) =>
      let cores : List Core :=
        if !logcfg.Stdout && !logcfg.FilesOut || logcfg.Stdout then
          [⟨consoleEncoder, .stdout, getLevel logcfg.Level⟩]
        else []
      if logcfg.FilesOut then
        match appendFileCores fileEncoder logcfg.LogsPath cores with
        | none => .panicked
        | some cores => .returned (some ⟨cores, logcfg.AddCaller⟩) none
      else .returned (some ⟨cores, logcfg.AddCaller⟩) none

/-- The function `New`: read the file, decode it over the defaults, build the logger. -/
def New (w : World) (configPath : String) : Outcome :=
  match w.ReadFile configPath with
  | .error e => .returned none (some (.fileRead e))
  | .ok file =>
    match Unmarshal w file logcfgDefault with
    | .error e => .returned none (some (.parse e))
    | .ok logcfg => newFromConfig logcfg

/-! ## Case changes of letters -/

/-- The rune-level step of `strings.ToUpper` (`unicode.ToUpper`), exact on every rune whose
upper case is an ASCII letter: `a`..`z`, U+0131 (dotless i, upper case `I`) and U+017F
(long s, upper case `S`). Every other rune upper-cases to a rune outside ASCII or to itself
and is left as it is. -/
def upperRune (c : Char) : Char :=
  if 97 ≤ c.toNat ∧ c.toNat ≤ 122 then Char.ofNat (c.toNat - 32)
  else if c.toNat = 0x131 then 'I'
  else if c.toNat = 0x17F then 'S'
  else c

/-- The function `strings.ToUpper`: every rune replaced by its upper case. -/
def ToUpper (s : String) : String := ⟨s.data.map upperRune⟩

/-- A rune outside ASCII whose lower case is outside ASCII too: every rune from U+0080 on
other than U+0130 and U+212A. -/
def outsideASCII (c : Char) : Prop := 0x80 ≤ c.toNat ∧ c.toNat ≠ 0x130 ∧ c.toNat ≠ 0x212A

/-- The rune `b` is the rune `a`, or `a` changed in case, the change of dotless i (U+0131)
into `I` excepted: `b` is the lower case of `a`, or its upper case, or both runes lie
outside ASCII with their lower case (which covers the case pairs of the other alphabets). -/
def caseChange (a b : Char) : Prop :=
  b = a ∨ b = lowerRune a ∨ (b = upperRune a ∧ a.toNat ≠ 0x131) ∨ (outsideASCII a ∧ outsideASCII b)

/-- The string `t` is `s` with some of its letters changed in case, no dotless i of `s`
having become `I`. -/
def CaseVariant (s t : String) : Prop := List.Forall₂ caseChange s.data t.data

/-- The letters that occur in the eight severity names of `getLevel`. -/
def nameLetters : List Char :=
  ['p', 'a', 'n', 'i', 'c', 'd', 'f', 't', 'l', 'e', 'r', 'o', 'w', 'g', 'u', 'b']

/-- The letter of a severity name a rune is compared as: its lower case when that is one of
`nameLetters`, none otherwise. -/
def nameLetter (c : Char) : Option Char :=
  if lowerRune c ∈ nameLetters then some (lowerRune c) else none

/-! ## Loading and assembling -/

/-- The environment field is accepted by the test of lines 84-90. -/
def validDesc (c : logConfig) : Prop :=
  EqualFold c.Desc "production" = true ∨ EqualFold c.Desc "development" = true

/-- The encoding field is accepted by the test of lines 93-104. -/
def validEncoding (c : logConfig) : Prop :=
  EqualFold c.Encoding "json" = true ∨ EqualFold c.Encoding "console" = true

/-- The file at `path` is readable and decodes, over the defaults, to the configuration `c`. -/
def Loaded (w : World) (path : String) (c : logConfig) : Prop :=
  ∃ file, w.ReadFile path = .ok file ∧ Unmarshal w file logcfgDefault = .ok c

/-- The encoder configuration of a valid configuration after line 92. -/
def encoderConfigOf (c : logConfig) : EncoderConfig :=
  { (if EqualFold c.Desc "production" then NewProductionEncoderConfig
      else NewDevelopmentEncoderConfig) with EncodeTime := .TimeEncoder }

/-- The encoder of the file sinks of a valid configuration. -/
def fileEncoderOf (c : logConfig) : Encoder :=
  if EqualFold c.Encoding "json" then .json (encoderConfigOf c) else .console (encoderConfigOf c)

/-- The encoder of the console sink of a valid configuration. -/
def consoleEncoderOf (c : logConfig) : Encoder :=
  if EqualFold c.Encoding "json" then .json (encoderConfigOf c)
  else .console (if c.Color then
    { encoderConfigOf c with EncodeLevel := .CapitalColorLevelEncoder } else encoderConfigOf c)

/-- The console sink: standard output, filtered by the top-level `Level`. -/
def consoleCore (c : logConfig) : Core := ⟨consoleEncoderOf c, .stdout, getLevel c.Level⟩

/-- The file sink of one target: its rotation hook, filtered by the target's own level. -/
def fileCore (c : logConfig) (t : logFilePath) : Core :=
  ⟨fileEncoderOf c, .file t.Hook, getLevel t.Level⟩

/-- The sinks expected for a configuration whose file targets are `targets`. -/
def expectedCores (c : logConfig) (targets : List logFilePath) : List Core :=
  (if c.Stdout || !c.FilesOut then [consoleCore c] else []) ++
    (if c.FilesOut then targets.map (fileCore c) else [])

/-! ## Concrete worlds -/

/-- A world with one configuration file, `./logs.json`, whose text is `text` and scans to
`doc`; an array for `LogsPath` decodes to `targets`. Every other path is missing. -/
def sampleWorld (text : String) (doc : Except String JSON)
    (targets : List (Option logFilePath)) : World :=
  { ReadFile := fun p =>
      if p = "./logs.json" then .ok text else .error ("open " ++ p ++ ": no such file or directory")
    scan := fun t => if t = text then doc else .error "unexpected end of JSON input"
    decodeLogsPath := fun _ _ => .ok targets }

/-- The configuration file `{"Desc":"PRODUCTION"}`. -/
def upperDescWorld : World :=
  sampleWorld "\x7b\"Desc\":\"PRODUCTION\"\x7d" (.ok (.object [("Desc", .str "PRODUCTION")])) []

/-- The configuration file `{"Encoding":"xml"}`. -/
def xmlWorld : World :=
  sampleWorld "\x7b\"Encoding\":\"xml\"\x7d" (.ok (.object [("Encoding", .str "xml")])) []

/-- The configuration file `{"Desc":"staging"}`. -/
def stagingWorld : World :=
  sampleWorld "\x7b\"Desc\":\"staging\"\x7d" (.ok (.object [("Desc", .str "staging")])) []

/-- The configuration file `{"Level":` which breaks off in the middle. -/
def truncatedWorld : World :=
  sampleWorld "\x7b\"Level\":" (.error "unexpected end of JSON input") []

/-- The configuration file `{"Level":"info","Stdout":true,"Encoding":"console"}`. -/
def infoWorld : World :=
  sampleWorld "\x7b\"Level\":\"info\",\"Stdout\":true,\"Encoding\":\"console\"\x7d"
    (.ok (.object [("Level", .str "info"), ("Stdout", .bool true), ("Encoding", .str "console")]))
    []

/-- The rotation policy of the defaults. -/
def defaultHook : LumberjackLogger :=
  { Filename := "./logs/zlog.log", MaxSize := 1024, MaxAge := 7, MaxBackups := 3 }

/-- The configuration file `{"FilesOut":true,"LogsPath":[{"Level":"warn"},{"Level":"info"}]}`:
the first element is decoded into the target of the defaults and keeps its hook, the second
into a new target without a hook. -/
def twoTargetsWorld : World :=
  sampleWorld
    "\x7b\"FilesOut\":true,\"LogsPath\":[\x7b\"Level\":\"warn\"\x7d,\x7b\"Level\":\"info\"\x7d]\x7d"
    (.ok (.object [("FilesOut", .bool true),
      ("LogsPath", .array [.object [("Level", .str "warn")], .object [("Level", .str "info")]])]))
    [some ⟨"warn", some defaultHook⟩, some ⟨"info", none⟩]

/-- The configuration file `{"Level":null}`. -/
def nullLevelWorld : World :=
  sampleWorld "\x7b\"Level\":null\x7d" (.ok (.object [("Level", .null)])) []

/-- The configuration file `{"FilesOut":true,"LogsPath":[null]}`: `encoding/json` decodes
the element `null` into a nil pointer. -/
def nullTargetWorld : World :=
  sampleWorld "\x7b\"FilesOut\":true,\"LogsPath\":[null]\x7d"
    (.ok (.object [("FilesOut", .bool true), ("LogsPath", .array [.null])]))
    [none]

/-- The configuration `nullTargetWorld` loads. -/
def nullTargetConfig : logConfig :=
  { logcfgDefault with FilesOut := true, LogsPath := [none] }

/-- The configuration file `{"FilesOut":true,"LogsPath":[null,{"Level":"warn"}]}`: a nil
pointer followed by a new target at level `warn` (which has no hook). -/
def nullThenWarnWorld : World :=
  sampleWorld "\x7b\"FilesOut\":true,\"LogsPath\":[null,\x7b\"Level\":\"warn\"\x7d]\x7d"
    (.ok (.object [("FilesOut", .bool true),
      ("LogsPath", .array [.null, .object [("Level", .str "warn")]])]))
    [none, some ⟨"warn", none⟩]

/-- The configuration `nullThenWarnWorld` loads. -/
def nullThenWarnConfig : logConfig :=
  { logcfgDefault with FilesOut := true, LogsPath := [none, some ⟨"warn", none⟩] }

/-- The configuration file `{"Stdout":false,"FilesOut":true,"LogsPath":[null]}`. -/
def silentNullWorld : World :=
  sampleWorld "\x7b\"Stdout\":false,\"FilesOut\":true,\"LogsPath\":[null]\x7d"
    (.ok (.object [("Stdout", .bool false), ("FilesOut", .bool true),
      ("LogsPath", .array [.null])]))
    [none]

/-- The configuration `silentNullWorld` loads. -/
def silentNullConfig : logConfig :=
  { logcfgDefault with Stdout := false, FilesOut := true, LogsPath := [none] }

/-! ## The configuration as the document layered over the defaults -/

/-- A value of a field of `logConfig`. -/
inductive Val where
  | s (x : String)
  | b (x : Bool)
  | paths (l : List (Option logFilePath))
deriving DecidableEq, Repr

/-- The value of a field in a configuration. -/
def logConfig.get (c : logConfig) : Field → Val
  | .Desc => .s c.Desc
  | .Level => .s c.Level
  | .Stdout => .b c.Stdout
  | .Encoding => .s c.Encoding
  | .AddCaller => .b c.AddCaller
  | .Color => .b c.Color
  | .FilesOut => .b c.FilesOut
  | .LogsPath => .paths c.LogsPath

/-- The value a JSON string gives to a string field and a JSON boolean to a boolean field.
Every other combination gives none: `null` stores nothing, an array belongs to `LogsPath`
and goes through the decoder of the world, and a value of the wrong type makes the decoding
fail. -/
def documentValue : Field → JSON → Option Val
  | .Desc, .str x => some (.s x)
  | .Level, .str x => some (.s x)
  | .Encoding, .str x => some (.s x)
  | .Stdout, .bool x => some (.b x)
  | .AddCaller, .bool x => some (.b x)
  | .Color, .bool x => some (.b x)
  | .FilesOut, .bool x => some (.b x)
  | _, _ => none

/-- Is the JSON value the literal `null`? -/
def JSON.isNull : JSON → Bool
  | .null => true
  | _ => false

/-! ## Properties of `getLevel` -/

theorem toNat_ofNat_of_lt (n : Nat) (h : n < 0xd800) : (Char.ofNat n).toNat = n := by
  have hv : n.isValidChar := Or.inl h
  simp only [Char.ofNat, hv, dite_true]
  simp [Char.toNat, Char.ofNatAux, UInt32.toNat]

theorem lowerRune_of_capital (c : Char) (h : 65 ≤ c.toNat ∧ c.toNat ≤ 90) :
    lowerRune c = Char.ofNat (c.toNat + 32) := by
  unfold lowerRune
  rw [if_pos h]

theorem lowerRune_of_other (c : Char) (h1 : ¬ (65 ≤ c.toNat ∧ c.toNat ≤ 90))
    (h2 : ¬ c.toNat = 0x130) (h3 : ¬ c.toNat = 0x212A) : lowerRune c = c := by
  unfold lowerRune
  rw [if_neg h1, if_neg h2, if_neg h3]

theorem lowerRune_small (n : Nat) (h : 97 ≤ n ∧ n ≤ 122) :
    lowerRune (Char.ofNat n) = Char.ofNat n := by
  have h1 := toNat_ofNat_of_lt n (by omega)
  apply lowerRune_of_other <;> rw [h1] <;> omega

theorem lowerRune_idem (c : Char) : lowerRune (lowerRune c) = lowerRune c := by
  by_cases h : 65 ≤ c.toNat ∧ c.toNat ≤ 90
  · rw [lowerRune_of_capital c h, lowerRune_small _ (by omega)]
  · by_cases h2 : c.toNat = 0x130
    · have e : lowerRune c = 'i' := by
        unfold lowerRune
        rw [if_neg h, if_pos h2]
      rw [e]; rfl
    · by_cases h3 : c.toNat = 0x212A
      · have e : lowerRune c = 'k' := by
          unfold lowerRune
          rw [if_neg h, if_neg h2, if_pos h3]
        rw [e]; rfl
      · rw [lowerRune_of_other c h h2 h3, lowerRune_of_other c h h2 h3]

theorem nameLetters_toNat (x : Char) (h : x ∈ nameLetters) : 97 ≤ x.toNat ∧ x.toNat ≤ 122 := by
  simp only [nameLetters, List.mem_cons, List.mem_singleton, List.not_mem_nil, or_false] at h
  rcases h with h | h | h | h | h | h | h | h | h | h | h | h | h | h | h | h <;>
    rw [h] <;> decide

theorem nameLetter_of_not_mem (c : Char) (h : ¬ (97 ≤ (lowerRune c).toNat ∧ (lowerRune c).toNat ≤ 122)) :
    nameLetter c = none := by
  unfold nameLetter
  rw [if_neg (fun hm => h (nameLetters_toNat _ hm))]

theorem nameLetter_lowerRune (c : Char) : nameLetter (lowerRune c) = nameLetter c := by
  unfold nameLetter
  rw [lowerRune_idem]

theorem nameLetter_outside (c : Char) (h : outsideASCII c) : nameLetter c = none := by
  obtain ⟨h1, h2, h3⟩ := h
  apply nameLetter_of_not_mem
  rw [lowerRune_of_other c (by omega) h2 h3]
  omega

theorem nameLetter_upperRune (c : Char) (h : c.toNat ≠ 0x131) :
    nameLetter (upperRune c) = nameLetter c := by
  by_cases h1 : 97 ≤ c.toNat ∧ c.toNat ≤ 122
  · have e : upperRune c = Char.ofNat (c.toNat - 32) := by
      unfold upperRune
      rw [if_pos h1]
    have h2 := toNat_ofNat_of_lt (c.toNat - 32) (by omega)
    have h3 : c.toNat - 32 + 32 = c.toNat := by omega
    unfold nameLetter
    rw [e, lowerRune_of_capital _ (by rw [h2]; omega), h2, h3, Char.ofNat_toNat,
      lowerRune_of_other c (by omega) (by omega) (by omega)]
  · by_cases h2 : c.toNat = 0x17F
    · have e : upperRune c = 'S' := by
        unfold upperRune
        rw [if_neg h1, if_neg h, if_pos h2]
      rw [e, nameLetter_outside c ⟨by omega, by omega, by omega⟩]
      decide
    · have e : upperRune c = c := by
        unfold upperRune
        rw [if_neg h1, if_neg h, if_neg h2]
      rw [e]

theorem map_nameLetter_variant (l₁ l₂ : List Char) (h : List.Forall₂ caseChange l₁ l₂) :
    l₂.map nameLetter = l₁.map nameLetter := by
  induction h with
  | nil => rfl
  | cons hab _ ih =>
    simp only [List.map_cons, ih]
    rcases hab with rfl | rfl | ⟨rfl, hne⟩ | ⟨ha, hb⟩
    · rfl
    · rw [nameLetter_lowerRune]
    · rw [nameLetter_upperRune _ hne]
    · rw [nameLetter_outside _ ha, nameLetter_outside _ hb]

theorem map_lowerRune_eq_iff (l name : List Char) (h : ∀ x ∈ name, x ∈ nameLetters) :
    l.map lowerRune = name ↔ l.map nameLetter = name.map some := by
  induction l generalizing name with
  | nil => cases name <;> simp
  | cons a l ih =>
    cases name with
    | nil => simp
    | cons k name =>
      have hk : k ∈ nameLetters := h k (List.mem_cons_self _ _)
      have hrest : ∀ x ∈ name, x ∈ nameLetters := fun x hx => h x (List.mem_cons_of_mem _ hx)
      have hhead : lowerRune a = k ↔ nameLetter a = some k := by
        unfold nameLetter
        constructor
        · intro e
          rw [e, if_pos hk]
        · intro e
          split at e
          · exact Option.some.inj e
          · exact absurd e (by simp)
      simp only [List.map_cons, List.cons.injEq, hhead, ih name hrest]

theorem ToLower_eq_iff (s name : String) (h : ∀ x ∈ name.data, x ∈ nameLetters) :
    ToLower s = name ↔ s.data.map nameLetter = name.data.map some := by
  unfold ToLower
  rw [String.ext_iff]
  exact map_lowerRune_eq_iff s.data name.data h

theorem getLevel_congr (s t : String) (h : t.data.map nameLetter = s.data.map nameLetter) :
    getLevel t = getLevel s := by
  unfold getLevel
  simp only [ToLower_eq_iff _ "panic" (by decide), ToLower_eq_iff _ "dpanic" (by decide),
    ToLower_eq_iff _ "fatal" (by decide), ToLower_eq_iff _ "error" (by decide),
    ToLower_eq_iff _ "warn" (by decide), ToLower_eq_iff _ "warning" (by decide),
    ToLower_eq_iff _ "info" (by decide), ToLower_eq_iff _ "debug" (by decide), h]

/-- Claim C4, as amended. Severity name matching in `getLevel` is case-insensitive up to
one pair of letters: a name and the same name with any of its letters changed in case get
the same level, as long as no dotless i (U+0131) is changed into `I`. In particular a name
and its lower-case form get the same level, a name without dotless i and its upper-case
form get the same level, and `WARN`, `warn` and `Warn` all get the warn level. -/
theorem getLevel_case_insensitive_except_dotless_i :
    (∀ s t : String, CaseVariant s t → getLevel t = getLevel s) ∧
    (∀ s : String, getLevel (ToLower s) = getLevel s) ∧
    (∀ s : String, (∀ c ∈ s.data, c.toNat ≠ 0x131) → getLevel (ToUpper s) = getLevel s) ∧
    getLevel "WARN" = WarnLevel ∧ getLevel "warn" = WarnLevel ∧ getLevel "Warn" = WarnLevel := by
  refine ⟨?_, ?_, ?_, by decide, by decide, by decide⟩
  · intro s t h
    exact getLevel_congr s t (map_nameLetter_variant s.data t.data h)
  · intro s
    apply getLevel_congr
    unfold ToLower
    simp only [List.map_map]
    apply List.map_congr_left
    intro c _
    exact nameLetter_lowerRune c
  · intro s hs
    apply getLevel_congr
    unfold ToUpper
    simp only [List.map_map]
    apply List.map_congr_left
    intro c hc
    exact nameLetter_upperRune c (hs c hc)

/-- The names `wArNiNg` and `Warning` differ in the case of letters only, and `INFO` is the
upper-case form of `info`. -/
theorem getLevel_case_insensitive_except_dotless_i_witness :
    getLevel "wArNiNg" = getLevel "Warning" ∧ getLevel (ToUpper "info") = getLevel "info" :=
  ⟨getLevel_case_insensitive_except_dotless_i.1 "Warning" "wArNiNg" (by
      unfold CaseVariant caseChange outsideASCII
      decide),
   getLevel_case_insensitive_except_dotless_i.2.2.1 "info" (by decide)⟩

/-- The name made of dotless i (U+0131) and `nfo` gets the debug level, its upper-case form
is `INFO`, and `INFO` gets the info level: the two differ in the case of one letter only
and `getLevel` tells them apart. -/
theorem getLevel_dotless_i_upper :
    getLevel "ınfo" = DebugLevel ∧ ToUpper "ınfo" = "INFO" ∧
    getLevel (ToUpper "ınfo") = InfoLevel ∧
    getLevel (ToUpper "ınfo") ≠ getLevel "ınfo" := by
  decide

/-- Claim C5. `getLevel` maps every name whose lower-case form is none of panic, dpanic,
fatal, error, warn, warning, info, debug to the debug level (the empty name included), and
the debug level is the least level: debug < info < warn < error < panic < fatal, and no
name gets a level below debug. -/
theorem getLevel_unknown_is_debug :
    (∀ s : String, ToLower s ∉ ["panic", "dpanic", "fatal", "error", "warn", "warning", "info", "debug"] →
      getLevel s = DebugLevel) ∧
    getLevel "" = DebugLevel ∧
    (DebugLevel < InfoLevel ∧ InfoLevel < WarnLevel ∧ WarnLevel < ErrorLevel ∧
      ErrorLevel < PanicLevel ∧ PanicLevel < FatalLevel) ∧
    (∀ s : String, DebugLevel ≤ getLevel s) := by
  refine ⟨?_, by decide, by decide, ?_⟩
  · intro s h
    simp only [List.mem_cons, List.mem_singleton, List.not_mem_nil, or_false, not_or] at h
    obtain ⟨h1, h2, h3, h4, h5, h6, h7, h8⟩ := h
    unfold getLevel
    simp [h1, h2, h3, h4, h5, h6, h7]
  · intro s
    unfold getLevel
    simp only
    split_ifs <;> decide

/-- The name `verbose` is unknown and gets the debug level. -/
theorem getLevel_unknown_is_debug_witness : getLevel "verbose" = DebugLevel :=
  getLevel_unknown_is_debug.1 "verbose" (by decide)

/-! ## Properties of `New` -/

theorem appendFileCores_some (enc : Encoder) (targets : List logFilePath) (cores : List Core) :
    appendFileCores enc (targets.map some) cores =
      some (cores ++ targets.map (fun t => ⟨enc, .file t.Hook, getLevel t.Level⟩)) := by
  induction targets generalizing cores with
  | nil => simp [appendFileCores]
  | cons t rest ih => simp [appendFileCores, ih]

theorem New_of_loaded (w : World) (path : String) (c : logConfig) (h : Loaded w path c) :
    New w path = newFromConfig c := by
  obtain ⟨file, h1, h2⟩ := h
  unfold New
  rw [h1]
  simp only [h2]

theorem newFromConfig_ok (c : logConfig) (targets : List logFilePath)
    (hD : validDesc c) (hE : validEncoding c)
    (hT : c.FilesOut = true → c.LogsPath = targets.map some) :
    newFromConfig c = .returned (some ⟨expectedCores c targets, c.AddCaller⟩) none := by
  unfold validDesc at hD
  unfold validEncoding at hE
  unfold newFromConfig expectedCores consoleCore fileCore fileEncoderOf consoleEncoderOf
    encoderConfigOf
  cases hF : c.FilesOut
  · cases hp : EqualFold c.Desc "production" <;> cases hj : EqualFold c.Encoding "json" <;>
      cases hS : c.Stdout <;> simp_all
  · have hL := hT hF
    cases hp : EqualFold c.Desc "production" <;> cases hj : EqualFold c.Encoding "json" <;>
      cases hS : c.Stdout <;> simp_all [appendFileCores_some]

theorem newFromConfig_bad_desc (c : logConfig) (hD : ¬ validDesc c) :
    newFromConfig c = .returned none (some (.configuration (invalidValueMessage c.Desc))) := by
  unfold validDesc at hD
  unfold newFromConfig
  simp only [not_or, Bool.not_eq_true] at hD
  simp [hD.1, hD.2]

theorem newFromConfig_bad_encoding (c : logConfig) (hD : validDesc c) (hE : ¬ validEncoding c) :
    newFromConfig c = .returned none (some (.configuration (invalidValueMessage c.Encoding))) := by
  unfold validDesc at hD
  unfold validEncoding at hE
  unfold newFromConfig
  simp only [not_or, Bool.not_eq_true] at hE
  cases hp : EqualFold c.Desc "production" <;> simp_all

theorem loaded_sample (text : String) (doc : JSON) (targets : List (Option logFilePath))
    (c : logConfig)
    (h : Unmarshal (sampleWorld text (.ok doc) targets) text logcfgDefault = .ok c) :
    Loaded (sampleWorld text (.ok doc) targets) "./logs.json" c :=
  ⟨text, by simp [sampleWorld], h⟩

/-- Claim C1, as amended. For a readable, well-formed configuration file (none of whose
file targets is null when file output is on), `New` returns a handle and no error when the
environment field matches `production` or `development` and the encoding field matches
`json` or `console`, both compared without regard to case as `strings.EqualFold` does; the
four exact names are such matches. When either field matches none of its names, `New`
returns a nil handle and a configuration error. -/
theorem New_succeeds_iff_fields_match (w : World) (path : String) (c : logConfig)
    (targets : List logFilePath) (hL : Loaded w path c)
    (hT : c.FilesOut = true → c.LogsPath = targets.map some) :
    (validDesc c ∧ validEncoding c → ∃ lg, New w path = .returned (some lg) none) ∧
    (¬ (validDesc c ∧ validEncoding c) →
      ∃ msg, New w path = .returned none (some (.configuration msg))) ∧
    ((c.Desc = "development" ∨ c.Desc = "production") ∧
      (c.Encoding = "console" ∨ c.Encoding = "json") → validDesc c ∧ validEncoding c) := by
  rw [New_of_loaded w path c hL]
  refine ⟨?_, ?_, ?_⟩
  · rintro ⟨hD, hE⟩
    exact ⟨_, newFromConfig_ok c targets hD hE hT⟩
  · intro h
    by_cases hD : validDesc c
    · have hE : ¬ validEncoding c := fun hE => h ⟨hD, hE⟩
      exact ⟨_, newFromConfig_bad_encoding c hD hE⟩
    · exact ⟨_, newFromConfig_bad_desc c hD⟩
  · rintro ⟨hD, hE⟩
    unfold validDesc validEncoding
    constructor
    · rcases hD with h | h <;> rw [h] <;> decide
    · rcases hE with h | h <;> rw [h] <;> decide

/-- The file `{"Desc":"staging"}` is rejected with a configuration error. -/
theorem New_succeeds_iff_fields_match_witness :
    ∃ msg, New stagingWorld "./logs.json" = .returned none (some (.configuration msg)) :=
  (New_succeeds_iff_fields_match stagingWorld "./logs.json"
    { logcfgDefault with Desc := "staging" } []
    (loaded_sample _ _ _ _ rfl) (by decide)).2.1 (by
      unfold validDesc validEncoding
      decide)

/-- The file `{"Desc":"PRODUCTION"}`: the environment value `PRODUCTION` is neither of the
two values `development` and `production`, and `New` returns a handle and no error. -/
theorem New_accepts_PRODUCTION :
    Loaded upperDescWorld "./logs.json" { logcfgDefault with Desc := "PRODUCTION" } ∧
    "PRODUCTION" ∉ ["development", "production"] ∧
    New upperDescWorld "./logs.json" =
      .returned (some
        { cores := [⟨.console ⟨.production, .CapitalColorLevelEncoder, .TimeEncoder⟩, .stdout,
            ErrorLevel⟩]
          addCaller := true }) none :=
  ⟨loaded_sample _ _ _ _ rfl, by decide, by decide⟩

/-- Claim C2, the code at the failing input `{"Encoding":"xml"}`: the configuration error
for the invalid encoding carries the text of the environment error. It names the value
`xml`, but calls the field `desc` and lists `development` and `production`. -/
theorem New_invalid_encoding_message :
    New xmlWorld "./logs.json" =
      .returned none (some (.configuration
        "'xml' in the configuration file for desc is an invalid value, it could be 'development' or 'production'")) := by
  decide

/-- Claim C3. When the path cannot be read, `New` returns the error of the read and a nil
handle; when the file is read and does not decode (a syntax error of the text, or a value
that does not fit the configuration), `New` returns the error of the decoding and a nil
handle. Both happen before the enumerations are looked at: the outcome is neither a
configuration error nor a handle. -/
theorem New_read_and_parse_errors (w : World) (path : String) :
    (∀ e, w.ReadFile path = .error e →
      New w path = .returned none (some (.fileRead e)) ∧
      (∀ msg, New w path ≠ .returned none (some (.configuration msg))) ∧
      (∀ lg err, New w path ≠ .returned (some lg) err)) ∧
    (∀ file e, w.ReadFile path = .ok file → Unmarshal w file logcfgDefault = .error e →
      New w path = .returned none (some (.parse e)) ∧
      (∀ msg, New w path ≠ .returned none (some (.configuration msg))) ∧
      (∀ lg err, New w path ≠ .returned (some lg) err)) ∧
    (∀ file e, w.scan file = .error e → Unmarshal w file logcfgDefault = .error e) := by
  refine ⟨?_, ?_, ?_⟩
  · intro e h
    have hN : New w path = .returned none (some (.fileRead e)) := by
      unfold New
      rw [h]
    rw [hN]
    exact ⟨rfl, by intro msg; simp, by intro lg err; simp⟩
  · intro file e h1 h2
    have hN : New w path = .returned none (some (.parse e)) := by
      unfold New
      rw [h1]
      simp only [h2]
    rw [hN]
    exact ⟨rfl, by intro msg; simp, by intro lg err; simp⟩
  · intro file e h
    unfold Unmarshal
    rw [h]

/-- A missing path gives the error of the read, a truncated file the error of the scan. -/
theorem New_read_and_parse_errors_witness :
    New truncatedWorld "./missing.json" =
      .returned none (some (.fileRead "open ./missing.json: no such file or directory")) ∧
    New truncatedWorld "./logs.json" =
      .returned none (some (.parse "unexpected end of JSON input")) :=
  ⟨((New_read_and_parse_errors truncatedWorld "./missing.json").1 _ rfl).1,
   ((New_read_and_parse_errors truncatedWorld "./logs.json").2.1 "\x7b\"Level\":" _ rfl rfl).1⟩

theorem filter_file_targets (c : logConfig) (targets : List logFilePath) :
    (targets.map (fileCore c)).filter (fun k => decide (k.out ≠ .stdout)) =
      targets.map (fileCore c) := by
  apply List.filter_eq_self.2
  intro k hk
  obtain ⟨t, _, rfl⟩ := List.mem_map.1 hk
  simp [fileCore]

theorem filter_console_targets (c : logConfig) (targets : List logFilePath) :
    (targets.map (fileCore c)).filter (fun k => decide (k.out = .stdout)) = [] := by
  apply List.filter_eq_nil_iff.2
  intro k hk
  obtain ⟨t, _, rfl⟩ := List.mem_map.1 hk
  simp [fileCore]

/-- Claim C6. For a valid configuration with file output off and console output on, the
sinks `New` assembles are exactly one: the console sink, with threshold `getLevel(Level)`,
whatever `LogsPath` lists. -/
theorem New_console_only (w : World) (path : String) (c : logConfig)
    (hL : Loaded w path c) (hD : validDesc c) (hE : validEncoding c)
    (hF : c.FilesOut = false) (hS : c.Stdout = true) :
    New w path =
      .returned (some ⟨[⟨consoleEncoderOf c, .stdout, getLevel c.Level⟩], c.AddCaller⟩) none := by
  rw [New_of_loaded w path c hL, newFromConfig_ok c [] hD hE (by simp [hF])]
  simp [expectedCores, hF, hS, consoleCore]

/-- The example document keeps the one file target of `logcfgDefault` in `LogsPath` and
still gets the console sink alone. -/
theorem New_console_only_witness :
    New infoWorld "./logs.json" =
      .returned (some ⟨[⟨.console ⟨.development, .CapitalColorLevelEncoder, .TimeEncoder⟩,
        .stdout, InfoLevel⟩], true⟩) none :=
  New_console_only infoWorld "./logs.json" { logcfgDefault with Level := "info" }
    (loaded_sample _ _ _ _ rfl) (by unfold validDesc; decide) (by unfold validEncoding; decide)
    rfl rfl

/-- For a valid configuration with file output on whose entries of `LogsPath` are all
non-nil: a record of severity `s` reaches the file sink of a target with level name `L`
exactly when `getLevel(L) ≤ s`; for a target at level `warn`, a record at info does not
reach the sink and a record at error does. -/
theorem file_sink_receives_iff_of_targets (w : World) (path : String) (c : logConfig)
    (targets : List logFilePath) (hL : Loaded w path c) (hD : validDesc c)
    (hE : validEncoding c) (hF : c.FilesOut = true) (hT : c.LogsPath = targets.map some) :
    ∃ lg, New w path = .returned (some lg) none ∧
      ∀ t ∈ targets,
        (∀ s : Level, fileCore c t ∈ lg.Check s ↔ getLevel t.Level ≤ s) ∧
        (t.Level = "warn" →
          fileCore c t ∉ lg.Check InfoLevel ∧ fileCore c t ∈ lg.Check ErrorLevel) := by
  rw [New_of_loaded w path c hL, newFromConfig_ok c targets hD hE (fun _ => hT)]
  refine ⟨_, rfl, ?_⟩
  intro t ht
  have hmem : fileCore c t ∈ expectedCores c targets := by
    unfold expectedCores
    rw [if_pos hF]
    exact List.mem_append_right _ (List.mem_map_of_mem _ ht)
  have key : ∀ s : Level, fileCore c t ∈ Logger.Check ⟨expectedCores c targets, c.AddCaller⟩ s ↔
      getLevel t.Level ≤ s := by
    intro s
    unfold Logger.Check
    simp only [List.mem_filter, hmem, true_and]
    simp [Core.Enabled, Enabled, fileCore]
  refine ⟨key, ?_⟩
  intro hw
  rw [key, key, hw]
  decide

/-- For a valid configuration: with file output on and all entries of `LogsPath` non-nil,
the file sinks `New` builds are, in order, one per entry, the sink of an entry writing to
the entry's hook and filtered by `getLevel` of the entry's own level; with file output off
there is no file sink. -/
theorem file_sinks_of_targets (w : World) (path : String) (c : logConfig)
    (hL : Loaded w path c) (hD : validDesc c) (hE : validEncoding c) :
    (∀ targets : List logFilePath, c.FilesOut = true → c.LogsPath = targets.map some →
      ∃ lg, New w path = .returned (some lg) none ∧
        lg.cores.filter (fun k => decide (k.out ≠ .stdout)) =
          targets.map (fun t => ⟨fileEncoderOf c, .file t.Hook, getLevel t.Level⟩)) ∧
    (c.FilesOut = false →
      ∃ lg, New w path = .returned (some lg) none ∧
        lg.cores.filter (fun k => decide (k.out ≠ .stdout)) = []) := by
  rw [New_of_loaded w path c hL]
  constructor
  · intro targets hF hT
    rw [newFromConfig_ok c targets hD hE (fun _ => hT)]
    refine ⟨_, rfl, ?_⟩
    have h := filter_file_targets c targets
    unfold expectedCores
    rw [if_pos hF, List.filter_append, h]
    cases c.Stdout <;> simp [hF, consoleCore] <;> exact fun _ _ => rfl
  · intro hF
    rw [newFromConfig_ok c [] hD hE (by simp [hF])]
    refine ⟨_, rfl, ?_⟩
    unfold expectedCores
    cases c.Stdout <;> simp [hF, consoleCore]

/-- For a valid configuration whose entries of `LogsPath` are all non-nil when file output
is on: the sinks contain a console sink exactly when console output is on or file output is
off, and never two; with both off there is the console sink alone, with both on the console
sink followed by the file sinks, and there is no sink at all exactly when console output is
off, file output is on and `LogsPath` is empty. -/
theorem console_sink_of_targets (w : World) (path : String) (c : logConfig)
    (targets : List logFilePath) (hL : Loaded w path c) (hD : validDesc c)
    (hE : validEncoding c) (hT : c.FilesOut = true → c.LogsPath = targets.map some) :
    ∃ lg, New w path = .returned (some lg) none ∧
      ((∃ k ∈ lg.cores, k.out = .stdout) ↔ (c.Stdout = true ∨ c.FilesOut = false)) ∧
      (lg.cores.filter (fun k => decide (k.out = .stdout))).length ≤ 1 ∧
      (c.Stdout = false → c.FilesOut = false → lg.cores = [consoleCore c]) ∧
      (c.Stdout = true → c.FilesOut = true →
        lg.cores = consoleCore c :: targets.map (fileCore c)) ∧
      (lg.cores = [] ↔ c.Stdout = false ∧ c.FilesOut = true ∧ c.LogsPath = []) := by
  rw [New_of_loaded w path c hL, newFromConfig_ok c targets hD hE hT]
  refine ⟨_, rfl, ?_⟩
  have hf := filter_console_targets c targets
  simp only [expectedCores]
  cases hS : c.Stdout <;> cases hF : c.FilesOut
  · simp [consoleCore]
  · have hT' := hT hF
    simp [hf, hT', fileCore]
  · simp [consoleCore]
  · have hT' := hT hF
    simp [hf, hT', fileCore, consoleCore]

/-- The file `{"FilesOut":true,"LogsPath":[{"Level":"warn"},{"Level":"info"}]}`: console
and file output are both on, and the handle has the console sink at the top-level level
`error`, followed by the two file sinks in the order of `LogsPath`, each at its own level. -/
theorem New_two_targets :
    New twoTargetsWorld "./logs.json" =
      .returned (some
        { cores :=
            [⟨.console ⟨.development, .CapitalColorLevelEncoder, .TimeEncoder⟩, .stdout,
              ErrorLevel⟩,
             ⟨.console ⟨.development, .CapitalLevelEncoder, .TimeEncoder⟩,
              .file (some defaultHook), WarnLevel⟩,
             ⟨.console ⟨.development, .CapitalLevelEncoder, .TimeEncoder⟩, .file none,
              InfoLevel⟩]
          addCaller := true }) none := by
  decide

/-- Claim C7, the code at the failing input
`{"FilesOut":true,"LogsPath":[null,{"Level":"warn"}]}`: the configuration is loaded and
valid, file output is on and `LogsPath` holds a target at level `warn`, and `New` panics at
line 113 on the nil entry before it: there is no handle, and no file sink for a record at
error to reach. -/
theorem New_panics_before_warn_target :
    Loaded nullThenWarnWorld "./logs.json" nullThenWarnConfig ∧
    validDesc nullThenWarnConfig ∧ validEncoding nullThenWarnConfig ∧
    nullThenWarnConfig.FilesOut = true ∧
    some ⟨"warn", none⟩ ∈ nullThenWarnConfig.LogsPath ∧
    getLevel "warn" ≤ ErrorLevel ∧
    New nullThenWarnWorld "./logs.json" = .panicked :=
  ⟨loaded_sample _ _ _ _ rfl, by unfold validDesc; decide, by unfold validEncoding; decide,
    rfl, by decide, by decide, by decide⟩

/-- Claim C9, the code at the failing input `{"FilesOut":true,"LogsPath":[null]}`: the
configuration is loaded and valid, file output is on and `LogsPath` has one entry, and `New`
panics at line 113 on the nil entry instead of returning a handle with one file sink. -/
theorem New_panics_on_null_target :
    Loaded nullTargetWorld "./logs.json" nullTargetConfig ∧
    validDesc nullTargetConfig ∧ validEncoding nullTargetConfig ∧
    nullTargetConfig.FilesOut = true ∧ nullTargetConfig.LogsPath.length = 1 ∧
    New nullTargetWorld "./logs.json" = .panicked :=
  ⟨loaded_sample _ _ _ _ rfl, by unfold validDesc; decide, by unfold validEncoding; decide,
    rfl, rfl, by decide⟩

/-- Claim C10, the code at the failing input
`{"Stdout":false,"FilesOut":true,"LogsPath":[null]}`: the configuration is loaded and valid,
console output is off, file output is on and `LogsPath` is not empty, and `New` panics at
line 113 on the nil entry instead of returning a handle with a non-empty list of sinks. -/
theorem New_panics_without_console :
    Loaded silentNullWorld "./logs.json" silentNullConfig ∧
    validDesc silentNullConfig ∧ validEncoding silentNullConfig ∧
    silentNullConfig.Stdout = false ∧ silentNullConfig.FilesOut = true ∧
    silentNullConfig.LogsPath ≠ [] ∧
    New silentNullWorld "./logs.json" = .panicked :=
  ⟨loaded_sample _ _ _ _ rfl, by unfold validDesc; decide, by unfold validEncoding; decide,
    rfl, rfl, by decide, by decide⟩

/-! ## Properties of the decoding -/

theorem store_other (w : World) (f g : Field) (v : JSON) (c c' : logConfig)
    (h : store w f v c = .ok c') (hg : g ≠ f) : c'.get g = c.get g := by
  cases f <;> cases v <;> simp only [store, reduceCtorEq] at h <;>
    first
    | (injection h with h; subst h; cases g <;> first | rfl | exact absurd rfl hg)
    | (split at h <;>
        first
        | (injection h with h; subst h; cases g <;> first | rfl | exact absurd rfl hg)
        | exact absurd h (by simp))

theorem store_value (w : World) (f : Field) (v : JSON) (c c' : logConfig) (x : Val)
    (h : store w f v c = .ok c') (hx : documentValue f v = some x) : c'.get f = x := by
  cases f <;> cases v <;> simp only [documentValue, reduceCtorEq] at hx <;>
    (injection hx with hx; subst hx; simp only [store] at h; injection h with h; subst h; rfl)

theorem store_null (w : World) (f : Field) (v : JSON) (c : logConfig)
    (hv : v.isNull = true) (hf : f ≠ .LogsPath) : store w f v c = .ok c := by
  cases v <;> simp only [JSON.isNull, reduceCtorEq] at hv
  cases f <;> first | rfl | exact absurd rfl hf

theorem decodeMembers_append (w : World) (pre rest : List (String × JSON)) (c c' : logConfig)
    (h : decodeMembers w (pre ++ rest) c = .ok c') :
    ∃ c1, decodeMembers w pre c = .ok c1 ∧ decodeMembers w rest c1 = .ok c' := by
  induction pre generalizing c with
  | nil => exact ⟨c, rfl, h⟩
  | cons m pre ih =>
    obtain ⟨key, v⟩ := m
    simp only [List.cons_append, decodeMembers] at h ⊢
    cases hf : findField key with
    | none =>
      simp only [hf] at h ⊢
      exact ih c h
    | some g =>
      simp only [hf] at h ⊢
      cases hs : store w g v c with
      | error e => simp [hs] at h
      | ok c1 =>
        simp only [hs] at h ⊢
        exact ih c1 h

theorem decodeMembers_unchanged (w : World) (f : Field) (members : List (String × JSON))
    (c c' : logConfig) (h : decodeMembers w members c = .ok c')
    (hm : ∀ m ∈ members, findField m.1 = some f → m.2.isNull = true ∧ f ≠ .LogsPath) :
    c'.get f = c.get f := by
  induction members generalizing c with
  | nil =>
    simp only [decodeMembers] at h
    injection h with h
    rw [h]
  | cons m rest ih =>
    obtain ⟨key, v⟩ := m
    have hk := hm (key, v) (List.mem_cons_self _ _)
    have hrest : ∀ m ∈ rest, findField m.1 = some f → m.2.isNull = true ∧ f ≠ .LogsPath :=
      fun m hmem => hm m (List.mem_cons_of_mem _ hmem)
    simp only [decodeMembers] at h
    cases hf : findField key with
    | none =>
      simp only [hf] at h
      exact ih c h hrest
    | some g =>
      simp only [hf] at h
      cases hs : store w g v c with
      | error e => simp [hs] at h
      | ok c1 =>
        simp only [hs] at h
        rw [ih c1 h hrest]
        by_cases hg : g = f
        · subst hg
          obtain ⟨hv, hne⟩ := hk hf
          rw [store_null w g v c hv hne] at hs
          injection hs with hs
          rw [hs]
        · exact store_other w g f v c c1 hs (fun e => hg e.symm)

theorem decodeMembers_last (w : World) (f : Field) (pre post : List (String × JSON))
    (key : String) (v : JSON) (x : Val) (c c' : logConfig)
    (h : decodeMembers w (pre ++ (key, v) :: post) c = .ok c')
    (hk : findField key = some f) (hx : documentValue f v = some x)
    (hm : ∀ m ∈ post, findField m.1 = some f → m.2.isNull = true) : c'.get f = x := by
  obtain ⟨c1, _, h2⟩ := decodeMembers_append w pre _ c c' h
  simp only [decodeMembers, hk] at h2
  have hf : f ≠ .LogsPath := by
    intro e
    subst e
    cases v <;> simp [documentValue] at hx
  cases hs : store w f v c1 with
  | error e => simp [hs] at h2
  | ok c2 =>
    simp only [hs] at h2
    rw [decodeMembers_unchanged w f post c2 c' h2 (fun m hmem hfm => ⟨hm m hmem hfm, hf⟩),
      store_value w f v c1 c2 x hs hx]

theorem decodeMembers_logsPath (w : World) (pre post : List (String × JSON))
    (key : String) (v : JSON) (c c' : logConfig)
    (h : decodeMembers w (pre ++ (key, v) :: post) c = .ok c')
    (hk : findField key = some .LogsPath)
    (hm : ∀ m ∈ post, findField m.1 ≠ some .LogsPath) :
    ∃ c1 c2, decodeMembers w pre c = .ok c1 ∧ store w .LogsPath v c1 = .ok c2 ∧
      c'.LogsPath = c2.LogsPath := by
  obtain ⟨c1, h1, h2⟩ := decodeMembers_append w pre _ c c' h
  simp only [decodeMembers, hk] at h2
  cases hs : store w .LogsPath v c1 with
  | error e => simp [hs] at h2
  | ok c2 =>
    simp only [hs] at h2
    have hg := decodeMembers_unchanged w .LogsPath post c2 c' h2
      (fun m hmem hfm => absurd hfm (hm m hmem))
    simp only [logConfig.get, Val.paths.injEq] at hg
    exact ⟨c1, c2, h1, hs, hg⟩

/-- Claim C8, as amended. The configuration `New` uses is the document layered over the
defaults (environment development, level error, console on, encoding console, call-site
capture on, color on, file output off): when the file holds a JSON object, `New` either
fails with the error of the decoding or goes on with a configuration in which
* a field that no key of the document decodes into, or that is only given `null`, keeps
  its default;
* a string or boolean field has the last value of its type the document gives it, later
  `null`s being without effect;
* `LogsPath` is what the decoder of `encoding/json` makes of the last array given for it,
  starting from the slice that is there (the default one when no earlier key touched it),
  and is empty when the document ends on `null` for it.
For the document `{"Level":"info","Stdout":true,"Encoding":"console"}`, `New` returns a
handle with exactly one sink, the console sink at threshold info, which takes records at
info, warn and error and none at debug. -/
theorem config_layered_over_defaults :
    (logcfgDefault.Desc = "development" ∧ logcfgDefault.Level = "error" ∧
      logcfgDefault.Stdout = true ∧ logcfgDefault.Encoding = "console" ∧
      logcfgDefault.AddCaller = true ∧ logcfgDefault.Color = true ∧
      logcfgDefault.FilesOut = false) ∧
    (∀ (w : World) (path file : String) (members : List (String × JSON)),
      w.ReadFile path = .ok file → w.scan file = .ok (.object members) →
      (∀ e, Unmarshal w file logcfgDefault = .error e →
        New w path = .returned none (some (.parse e))) ∧
      (∀ c, Unmarshal w file logcfgDefault = .ok c →
        New w path = newFromConfig c ∧
        (∀ f : Field,
          (∀ m ∈ members, findField m.1 = some f → m.2.isNull = true ∧ f ≠ .LogsPath) →
          c.get f = logcfgDefault.get f) ∧
        (∀ (f : Field) (pre post : List (String × JSON)) (key : String) (v : JSON) (x : Val),
          members = pre ++ (key, v) :: post → findField key = some f →
          documentValue f v = some x →
          (∀ m ∈ post, findField m.1 = some f → m.2.isNull = true) → c.get f = x) ∧
        (∀ (pre post : List (String × JSON)) (key : String) (elems : List JSON),
          members = pre ++ (key, .array elems) :: post → findField key = some .LogsPath →
          (∀ m ∈ post, findField m.1 ≠ some .LogsPath) →
          ∃ cur, w.decodeLogsPath elems cur = .ok c.LogsPath ∧
            ((∀ m ∈ pre, findField m.1 ≠ some .LogsPath) → cur = logcfgDefault.LogsPath)) ∧
        (∀ (pre post : List (String × JSON)) (key : String),
          members = pre ++ (key, .null) :: post → findField key = some .LogsPath →
          (∀ m ∈ post, findField m.1 ≠ some .LogsPath) → c.LogsPath = []))) ∧
    (∀ (w : World) (path file : String), w.ReadFile path = .ok file →
      w.scan file = .ok (.object
        [("Level", .str "info"), ("Stdout", .bool true), ("Encoding", .str "console")]) →
      ∃ k : Core, New w path = .returned (some ⟨[k], true⟩) none ∧
        k.out = .stdout ∧ k.level = InfoLevel ∧
        Logger.Check ⟨[k], true⟩ InfoLevel = [k] ∧ Logger.Check ⟨[k], true⟩ WarnLevel = [k] ∧
        Logger.Check ⟨[k], true⟩ ErrorLevel = [k] ∧ Logger.Check ⟨[k], true⟩ DebugLevel = []) := by
  refine ⟨by decide, ?_, ?_⟩
  · intro w path file members hr hs
    constructor
    · intro e he
      unfold New
      rw [hr]
      simp only [he]
    · intro c hc
      have hd : decodeMembers w members logcfgDefault = .ok c := by
        unfold Unmarshal at hc
        simp only [hs] at hc
        exact hc
      refine ⟨New_of_loaded w path c ⟨file, hr, hc⟩, ?_, ?_, ?_, ?_⟩
      · intro f hm
        exact decodeMembers_unchanged w f members logcfgDefault c hd hm
      · intro f pre post key v x hmem hk hx hm
        rw [hmem] at hd
        exact decodeMembers_last w f pre post key v x logcfgDefault c hd hk hx hm
      · intro pre post key elems hmem hk hm
        rw [hmem] at hd
        obtain ⟨c1, c2, h1, h2, h3⟩ :=
          decodeMembers_logsPath w pre post key (.array elems) logcfgDefault c hd hk hm
        simp only [store] at h2
        cases hdl : w.decodeLogsPath elems c1.LogsPath with
        | error e => simp [hdl] at h2
        | ok l =>
          simp only [hdl] at h2
          injection h2 with h2
          refine ⟨c1.LogsPath, ?_, ?_⟩
          · rw [hdl, h3, ← h2]
          · intro hpre
            have hg := decodeMembers_unchanged w .LogsPath pre logcfgDefault c1 h1
              (fun m hm' hfm => absurd hfm (hpre m hm'))
            simp only [logConfig.get, Val.paths.injEq] at hg
            exact hg
      · intro pre post key hmem hk hm
        rw [hmem] at hd
        obtain ⟨c1, c2, _, h2, h3⟩ :=
          decodeMembers_logsPath w pre post key .null logcfgDefault c hd hk hm
        simp only [store] at h2
        injection h2 with h2
        rw [h3, ← h2]
  · intro w path file hr hs
    have hu : Unmarshal w file logcfgDefault = .ok { logcfgDefault with Level := "info" } := by
      unfold Unmarshal
      simp only [hs]
      rfl
    have hN : New w path = newFromConfig { logcfgDefault with Level := "info" } :=
      New_of_loaded w path _ ⟨file, hr, hu⟩
    rw [hN]
    exact ⟨⟨.console ⟨.development, .CapitalColorLevelEncoder, .TimeEncoder⟩, .stdout, InfoLevel⟩,
      by decide, rfl, rfl, by decide, by decide, by decide, by decide⟩

/-- The document of the example: `New` goes on with a configuration whose environment is
the default and whose level is `info`, and returns the console sink at threshold info
alone. -/
theorem config_layered_over_defaults_witness :
    (New infoWorld "./logs.json" = newFromConfig { logcfgDefault with Level := "info" } ∧
      logConfig.get { logcfgDefault with Level := "info" } .Desc = .s "development" ∧
      logConfig.get { logcfgDefault with Level := "info" } .Level = .s "info") ∧
    ∃ k : Core, New infoWorld "./logs.json" = .returned (some ⟨[k], true⟩) none ∧
      k.out = .stdout ∧ k.level = InfoLevel ∧
      Logger.Check ⟨[k], true⟩ InfoLevel = [k] ∧ Logger.Check ⟨[k], true⟩ WarnLevel = [k] ∧
      Logger.Check ⟨[k], true⟩ ErrorLevel = [k] ∧ Logger.Check ⟨[k], true⟩ DebugLevel = [] :=
  have h := (config_layered_over_defaults.2.1 infoWorld "./logs.json"
    "\x7b\"Level\":\"info\",\"Stdout\":true,\"Encoding\":\"console\"\x7d"
    [("Level", .str "info"), ("Stdout", .bool true), ("Encoding", .str "console")]
    rfl rfl).2 { logcfgDefault with Level := "info" } rfl
  ⟨⟨h.1, h.2.1 .Desc (by decide),
    h.2.2.1 .Level [] [("Stdout", .bool true), ("Encoding", .str "console")] "Level"
      (.str "info") (.s "info") rfl (by decide) rfl (by decide)⟩,
   config_layered_over_defaults.2.2 infoWorld "./logs.json" _ rfl rfl⟩

/-- The file `{"Level":null}`: the document mentions the field `Level`, its value there is
`null`, and `New` goes on with the default level `error`: the console sink has threshold
error. -/
theorem New_keeps_default_on_null :
    findField "Level" = some .Level ∧
    Loaded nullLevelWorld "./logs.json" logcfgDefault ∧
    logcfgDefault.get .Level = .s "error" ∧
    New nullLevelWorld "./logs.json" =
      .returned (some
        { cores := [⟨.console ⟨.development, .CapitalColorLevelEncoder, .TimeEncoder⟩, .stdout,
            ErrorLevel⟩]
          addCaller := true }) none :=
  ⟨by decide, loaded_sample _ _ _ _ rfl, rfl, by decide⟩

end PydrLogger
